import Mathlib

/-!
Verification of the hypothesis-gufunc generation library.

Strategies of the underlying property-based-testing runtime are modelled by
their sets of possible draws (`Strat α := α → Prop`).  Constructors that
validate their configuration before any draw are modelled in the
`Except String` monad, mirroring the synchronous `InvalidArgument` errors of
the original.  The functions below follow `hypothesis_gufunc/extra/xr.py`
line by line; the gufunc argument pipeline (whose source module is not part
of this tree) is modelled from the specification in a separate namespace.
-/

namespace Spec2Proof

/-- A strategy is modelled extensionally: the predicate holds of exactly the
values that some draw can produce. -/
abbrev Strat (α : Type) := α → Prop

/-- Membership model of `hypothesis.strategies.sampled_from`. -/
def sampled_from {α : Type} (L : List α) : Strat α := fun x => x ∈ L

/-- Membership model of `hypothesis.strategies.nothing`: no draw succeeds. -/
def nothingSt {α : Type} : Strat α := fun _ => False

/-- Membership model of `hypothesis.strategies.lists` with size bounds and a
uniqueness flag. -/
def listsSt {α : Type} (elem : Strat α) (min_size : Int) (max_size : Option Int)
    (unique : Bool) : Strat (List α) :=
  fun l => min_size ≤ (l.length : Int)
    ∧ (∀ m, max_size = some m → (l.length : Int) ≤ m)
    ∧ (∀ x ∈ l, elem x)
    ∧ (unique = true → l.Nodup)

/-- Membership model of `hypothesis.strategies.tuples` (binary case). -/
def tuplesSt {α β : Type} (S : Strat α) (T : Strat β) : Strat (α × β) :=
  fun p => S p.1 ∧ T p.2

/-- Membership model of `SearchStrategy.filter`. -/
def filterSt {α : Type} (S : Strat α) (p : α → Prop) : Strat α :=
  fun x => S x ∧ p x

/-- Membership model of `SearchStrategy.map`. -/
def mapSt {α β : Type} (S : Strat α) (f : α → β) : Strat β :=
  fun y => ∃ x, S x ∧ y = f x

/-- Membership model of `SearchStrategy.flatmap` where the body may itself
raise a validation error while the draw is running. -/
def flatMapE {α β : Type} (S : Strat α) (f : α → Except String (Strat β)) : Strat β :=
  fun y => ∃ x, S x ∧ ∃ T, f x = .ok T ∧ T y

/-- Membership model of `hypothesis.strategies.fixed_dictionaries` applied to
an ordered association of keys to strategies. -/
def fixed_dictionaries {κ α : Type} (C : List (κ × Strat α)) : Strat (List (κ × α)) :=
  fun d => List.Forall₂ (fun c kv => kv.1 = c.1 ∧ c.2 kv.2) C d

/-- Membership model of `hypothesis.strategies.integers` with optional bounds. -/
def integersSt (lo hi : Option Int) : Strat Int :=
  fun n => (∀ m, lo = some m → m ≤ n) ∧ (∀ m, hi = some m → n ≤ m)

/-- Association-list lookup used to model Python `dict` access. -/
def lookupA {κ α : Type} [DecidableEq κ] (k : κ) : List (κ × α) → Option α
  | [] => none
  | p :: ps => if p.1 = k then some p.2 else lookupA k ps

/-- Eager effectful map, modelling a Python list comprehension in which each
element's construction may raise. -/
def mapE {α β : Type} (f : α → Except String β) : List α → Except String (List β)
  | [] => .ok []
  | a :: rest => do
      let b ← f a
      let bs ← mapE f rest
      .ok (b :: bs)

/-- Model of `hypothesis.internal.validation.order_check(name, floor, small,
large)`: fails unless `floor ≤ small ≤ large`. -/
def order_check (name : String) (floor small large : Int) : Except String Unit :=
  if small < floor then .error (name ++ " below floor")
  else if large < small then .error (name ++ " out of order")
  else .ok ()

/-- Model of `_check_valid_size_interval` (xr.py lines 31-39); the
`check_valid_bound` calls are no-ops on integers. -/
def _check_valid_size_interval (min_size : Int) (max_size : Option Int)
    (name : String) : Except String Unit :=
  match max_size with
  | none => order_check name 0 min_size min_size
  | some m => order_check name 0 min_size m

/-- Default side length constant `DEFAULT_SIDE` of xr.py. -/
def DEFAULT_SIDE : Int := 5

/-- Default dimension count constant `DEFAULT_DIMS` of xr.py. -/
def DEFAULT_DIMS : Int := 5

/-- Default variable count constant `DEFAULT_VARS` of xr.py. -/
def DEFAULT_VARS : Int := 5

/-- Character set of `string.ascii_lowercase`. -/
def lowercaseChar (c : Char) : Prop := 'a' ≤ c ∧ c ≤ 'z'

/-- Model of `_easy_text()`: ascii-lowercase text of length at most 5. -/
def _easy_text : Strat String :=
  fun s => s.length ≤ 5 ∧ ∀ c ∈ s.data, lowercaseChar c

/-- Hashable variable-name values: floats, integers or short strings.  Float
values are abstracted by an opaque index (no claim depends on float
arithmetic); a float never equals an integer or a string here, which is all
the name-collision logic observes. -/
inductive HVal where
  | flt : Nat → HVal
  | int : Int → HVal
  | str : String → HVal
deriving DecidableEq, Repr

/-- Model of `_hashable()`: the union strategy `floats() | integers() |
_easy_text()`. -/
def _hashable : Strat HVal :=
  fun v => match v with
  | .flt _ => True
  | .int _ => True
  | .str s => _easy_text s

/-- Alias `xr_dims = _easy_text` from xr.py. -/
def xr_dims : Strat String := _easy_text

/-- Alias `xr_vars = _hashable` from xr.py. -/
def xr_vars : Strat HVal := _hashable

/-- Model of `_get_all_dims` (xr.py lines 51-53):
`sorted(set(sum((list(dd) for dd in vars_to_dims.values()), [])))`. -/
def _get_all_dims (vars_to_dims : List (HVal × List String)) : List String :=
  List.insertionSort (· ≤ ·) ((vars_to_dims.map Prod.snd).flatten.dedup)

/-- Model of `subset_lists` (xr.py lines 60-89). -/
def subset_lists {α : Type} [DecidableEq α] (L : List α) (min_size : Int)
    (max_size : Option Int) : Except String (Strat (List α)) := do
  _check_valid_size_interval min_size max_size "subset list size"
  let uniq_len : Int := L.dedup.length
  order_check "input list size" 0 min_size uniq_len
  let max_sz : Int := match max_size with | none => uniq_len | some m => min uniq_len m
  let elements_st : Strat α := if uniq_len = 0 then nothingSt else sampled_from L
  .ok (listsSt elements_st min_size (some max_sz) true)

/-- Model of `xr_dim_lists` (xr.py lines 92-109). -/
def xr_dim_lists (min_dims : Int) (max_dims : Option Int) :
    Except String (Strat (List String)) := do
  _check_valid_size_interval min_dims max_dims "dimensions"
  .ok (listsSt xr_dims min_dims max_dims true)

/-- Model of `xr_var_lists` (xr.py lines 112-129). -/
def xr_var_lists (min_vars : Int) (max_vars : Option Int) :
    Except String (Strat (List HVal)) := do
  _check_valid_size_interval min_vars max_vars "variables"
  .ok (listsSt xr_vars min_vars max_vars true)

/-- The `no_overlap` filter of `_vars_and_dims_pairs`: the drawn dimension
names must not intersect the drawn variable names. -/
def no_overlap (p : List HVal × List String) : Prop :=
  ∀ d ∈ p.2, HVal.str d ∉ p.1

/-- Model of `_vars_and_dims_pairs` (xr.py lines 132-145). -/
def _vars_and_dims_pairs (min_vars : Int) (max_vars : Option Int) (min_dims : Int)
    (max_dims : Option Int) : Except String (Strat (List HVal × List String)) := do
  let V ← xr_var_lists min_vars max_vars
  let D ← xr_dim_lists min_dims max_dims
  .ok (filterSt (tuplesSt V D) no_overlap)

/-- Model of `vars_to_dims_dicts` (xr.py lines 148-179). -/
def vars_to_dims_dicts (min_vars : Int) (max_vars : Option Int) (min_dims : Int)
    (max_dims : Option Int) : Except String (Strat (List (HVal × List String))) := do
  _check_valid_size_interval min_vars max_vars "variables"
  _check_valid_size_interval min_dims max_dims "dimensions"
  let P ← _vars_and_dims_pairs min_vars max_vars min_dims max_dims
  .ok (flatMapE P (fun p => do
    let dim_st ← subset_lists p.2 min_dims max_dims
    .ok (fixed_dictionaries (p.1.map (fun vv => (vv, dim_st))))))

/-- Model of `xr_coords` (xr.py lines 182-209). -/
def xr_coords (elements : Option (Strat Int)) (min_side : Int) (max_side : Option Int)
    (unique : Bool) : Except String (Strat (List Int)) := do
  _check_valid_size_interval min_side max_side "side"
  let elems := elements.getD (integersSt none none)
  .ok (listsSt elems min_side max_side unique)

/-- Model of `simple_coords` (xr.py lines 212-233): an integer `n` is drawn in
range and mapped to `list(range(n))`. -/
def simple_coords (min_side : Int) (max_side : Option Int) :
    Except String (Strat (List Int)) := do
  _check_valid_size_interval min_side max_side "side"
  .ok (mapSt (integersSt (some min_side) max_side)
    (fun n => (List.range n.toNat).map Int.ofNat))

/-- Model of `xr_coords_dicts` (xr.py lines 236-269). -/
def xr_coords_dicts (dims : List String) (elements : Option (Strat Int))
    (min_side : Int) (max_side : Option Int) (unique_coords : Bool)
    (coords_st : List (String × Strat (List Int))) :
    Except String (Strat (List (String × List Int))) := do
  _check_valid_size_interval min_side max_side "side"
  let default_st ← xr_coords elements min_side max_side unique_coords
  .ok (fixed_dictionaries (dims.map (fun dd => (dd, (lookupA dd coords_st).getD default_st))))

/-- Raw multi-dimensional integer arrays: a scalar or a list of sub-arrays. -/
inductive Tensor where
  | scalar : Int → Tensor
  | arr : List Tensor → Tensor

mutual

/-- Shape conformance of a tensor: rank and every extent match. -/
def Tensor.shapeOk : Tensor → List Nat → Bool
  | .scalar _, [] => true
  | .arr l, n :: ns => (l.length == n) && Tensor.shapeOkL l ns
  | _, _ => false

/-- Shape conformance for every member of a list of tensors. -/
def Tensor.shapeOkL : List Tensor → List Nat → Bool
  | [], _ => true
  | t :: ts, ns => Tensor.shapeOk t ns && Tensor.shapeOkL ts ns

end

mutual

/-- Every element of the tensor satisfies the element predicate. -/
def Tensor.allP (p : Int → Prop) : Tensor → Prop
  | .scalar v => p v
  | .arr l => Tensor.allPL p l

/-- Every element of every tensor in the list satisfies the predicate. -/
def Tensor.allPL (p : Int → Prop) : List Tensor → Prop
  | [] => True
  | t :: ts => Tensor.allP p t ∧ Tensor.allPL p ts

end

/-- Membership model of `hypothesis.extra.numpy.arrays(dtype, shape,
elements)`: any array of the requested shape whose elements come from the
element strategy (the dtype only selects the external element domain). -/
def arrays (elements : Strat Int) (shape : List Nat) : Strat Tensor :=
  fun t => t.shapeOk shape = true ∧ Tensor.allP elements t

/-- Model of `xarray.DataArray`: raw data, ordered dimension names, and the
coordinate mapping restricted to those dimensions. -/
structure DataArray where
  data : Tensor
  dims : List String
  coords : List (String × List Int)

/-- Model of `xarray.Dataset`: named data variables plus the shared
coordinate mapping. -/
structure Dataset where
  data_vars : List (HVal × DataArray)
  coords : List (String × List Int)

/-- Model of `fixed_coords_dataarrays` (xr.py lines 272-298).  The shape is
computed eagerly from the coordinate lengths (a missing key raises), the
coordinates are filtered to the requested dimensions, and the raw data is
drawn by the external array primitive. -/
def fixed_coords_dataarrays (dims : List String) (coords : List (String × List Int))
    (elements : Strat Int) : Except String (Strat DataArray) := do
  let shape ← mapE (fun dd =>
    match lookupA dd coords with
    | some cc => .ok cc.length
    | none => .error "KeyError") dims
  let kept := coords.filter (fun p => decide (p.1 ∈ dims))
  .ok (mapSt (arrays elements shape) (fun data => DataArray.mk data dims kept))

/-- Model of `fixed_dataarrays` (xr.py lines 301-337); note the call to
`xr_coords_dicts` leaves `unique_coords` at its default `true`. -/
def fixed_dataarrays (dims : List String) (elements : Strat Int)
    (coords_elements : Option (Strat Int)) (min_side : Int) (max_side : Option Int)
    (coords_st : List (String × Strat (List Int))) :
    Except String (Strat DataArray) := do
  _check_valid_size_interval min_side max_side "side"
  let C ← xr_coords_dicts dims coords_elements min_side max_side true coords_st
  .ok (flatMapE C (fun cc => fixed_coords_dataarrays dims cc elements))

/-- Model of `simple_dataarrays` (xr.py lines 340-369): every dimension is
overridden with `simple_coords`; the remaining arguments of
`fixed_dataarrays` stay at their Python defaults. -/
def simple_dataarrays (dims : List String) (elements : Strat Int) (min_side : Int)
    (max_side : Option Int) : Except String (Strat DataArray) := do
  _check_valid_size_interval min_side max_side "side"
  let default_st ← simple_coords min_side max_side
  fixed_dataarrays dims elements none 0 (some DEFAULT_SIDE)
    (dims.map (fun dd => (dd, default_st)))

/-- Model of `dataarrays` (xr.py lines 372-419). -/
def dataarrays (elements : Strat Int) (coords_elements : Option (Strat Int))
    (min_side : Int) (max_side : Option Int) (min_dims : Int) (max_dims : Option Int) :
    Except String (Strat DataArray) := do
  _check_valid_size_interval min_side max_side "side"
  _check_valid_size_interval min_dims max_dims "dimensions"
  let D ← xr_dim_lists min_dims max_dims
  .ok (flatMapE D (fun dims =>
    fixed_dataarrays dims elements coords_elements min_side max_side []))

/-- Model of `fixed_coords_datasets` (xr.py lines 422-449): one
`fixed_coords_dataarrays` strategy per variable (built eagerly), combined by
`fixed_dictionaries` and wrapped into a Dataset carrying the given shared
coordinates.  The per-variable dtype dictionary only selects the external
element domain and is subsumed by `elements`. -/
def fixed_coords_datasets (vars_to_dims : List (HVal × List String))
    (coords : List (String × List Int)) (elements : Strat Int) :
    Except String (Strat Dataset) := do
  let C ← mapE (fun p => do
    let st ← fixed_coords_dataarrays p.2 coords elements
    .ok (p.1, st)) vars_to_dims
  .ok (mapSt (fixed_dictionaries C) (fun data => Dataset.mk data coords))

/-- Model of `fixed_datasets` (xr.py lines 452-490). -/
def fixed_datasets (vars_to_dims : List (HVal × List String)) (elements : Strat Int)
    (coords_elements : Option (Strat Int)) (min_side : Int) (max_side : Option Int)
    (coords_st : List (String × Strat (List Int))) :
    Except String (Strat Dataset) := do
  _check_valid_size_interval min_side max_side "side"
  let all_dims := _get_all_dims vars_to_dims
  let C ← xr_coords_dicts all_dims coords_elements min_side max_side true coords_st
  .ok (flatMapE C (fun cc => fixed_coords_datasets vars_to_dims cc elements))

/-- Model of `simple_datasets` (xr.py lines 493-523). -/
def simple_datasets (vars_to_dims : List (HVal × List String)) (elements : Strat Int)
    (min_side : Int) (max_side : Option Int) : Except String (Strat Dataset) := do
  _check_valid_size_interval min_side max_side "side"
  let all_dims := _get_all_dims vars_to_dims
  let default_st ← simple_coords min_side max_side
  fixed_datasets vars_to_dims elements none 0 (some DEFAULT_SIDE)
    (all_dims.map (fun dd => (dd, default_st)))

/-- Model of `datasets` (xr.py lines 526-584). -/
def datasets (elements : Strat Int) (coords_elements : Option (Strat Int))
    (min_side : Int) (max_side : Option Int) (min_vars : Int) (max_vars : Option Int)
    (min_dims : Int) (max_dims : Option Int) : Except String (Strat Dataset) := do
  _check_valid_size_interval min_side max_side "side"
  _check_valid_size_interval min_vars max_vars "variables"
  _check_valid_size_interval min_dims max_dims "dimensions"
  let V ← vars_to_dims_dicts min_vars max_vars min_dims max_dims
  .ok (flatMapE V (fun vtd =>
    fixed_datasets vtd elements coords_elements min_side max_side []))

namespace Gufunc

/-- Modelled from the spec: the structured form of a gufunc shape signature
(section 4.1); the module `hypothesis_gufunc/gufunc.py` implementing the
signature parser and shape resolver is not part of this tree. -/
structure Signature where
  inputs : List (List String)
  output : List String
deriving DecidableEq, Repr

/-- Modelled from the spec: whether the second character list starts with the
first one. -/
def leadsWith : List Char → List Char → Bool
  | [], _ => true
  | _ :: _, [] => false
  | a :: as, b :: bs => (a == b) && leadsWith as bs

/-- Modelled from the spec: split a character list on every occurrence of a
separator sequence; the fuel argument bounds the recursion and is set to the
input length plus one by callers. -/
def splitSeq (sep : List Char) : Nat → List Char → List (List Char)
  | _, [] => [[]]
  | 0, cs => [cs]
  | f + 1, c :: cs =>
      if leadsWith sep (c :: cs) then
        [] :: splitSeq sep f ((c :: cs).drop sep.length)
      else
        match splitSeq sep f cs with
        | [] => [[c]]
        | p :: ps => (c :: p) :: ps

/-- Modelled from the spec: a dimension symbol is a nonempty token free of
the grammar's punctuation. -/
def symOk (t : List Char) : Bool :=
  (!t.isEmpty) && t.all (fun c =>
    (c != '(') && (c != ')') && (c != ',') && (c != '-') && (c != '>'))

/-- Modelled from the spec: parse the contents of one parenthesised core
dimension group, the empty content denoting the zero-dimension group `()`. -/
def parseGroup (p : List Char) : Option (List String) :=
  if p = [] then some [] else
    let syms := splitSeq [','] (p.length + 1) p
    if syms.all symOk then some (syms.map String.mk) else none

/-- Modelled from the spec: parse one side of the arrow, a comma-separated
sequence of parenthesised groups. -/
def parseSide (s : List Char) : Option (List (List String)) :=
  match s with
  | '(' :: rest =>
      if rest.getLast? = some ')' then
        (splitSeq [')', ',', '('] (rest.dropLast.length + 1) rest.dropLast).mapM parseGroup
      else none
  | _ => none

/-- Modelled from the spec: the signature parser of section 4.1, grammar
`"(sym,...),(sym,...)->(sym,...)"` with a single output group. -/
def parse_signature (s : String) : Option Signature :=
  match splitSeq ['-', '>'] (s.data.length + 1) s.data with
  | [li, lo] => do
    let ins ← parseSide li
    let outs ← parseSide lo
    match outs with
    | [o] => some (Signature.mk ins o)
    | _ => none
  | _ => none

/-- Modelled from the spec: the membership of `gufunc_args` (sections
4.2-4.3).  A draw fixes one shared size binding `b` for the core dimension
symbols (each within the size range), independently draws per-argument extra
leading dimensions (count at most `max_dims_extra`, sizes in range), and
fills one array per input argument of shape extra-dims ++ core-dims. -/
def gufunc_args (sig_str : String) (elements : Strat Int)
    (min_side max_side max_dims_extra : Nat) : Option (Strat (List Tensor)) :=
  (parse_signature sig_str).map (fun sig =>
    fun args => ∃ (b : String → Nat) (extras : List (List Nat)),
      (∀ s ∈ sig.inputs.flatten, min_side ≤ b s ∧ b s ≤ max_side) ∧
      extras.length = sig.inputs.length ∧
      (∀ e ∈ extras, e.length ≤ max_dims_extra ∧ ∀ z ∈ e, min_side ≤ z ∧ z ≤ max_side) ∧
      List.Forall₂ (fun pe t => arrays elements (pe.1 ++ pe.2.map b) t)
        (extras.zip sig.inputs) args)

end Gufunc

/-- Discriminates the error outcome of a modelled constructor. -/
def isErr {α : Type} (e : Except String α) : Bool :=
  match e with | .error _ => true | .ok _ => false

/-- Shape consistency of a Dataset: every variable finds a shared coordinate
for each of its dimensions, and its raw data has exactly the shape given by
those coordinate lengths in the variable's own dimension order. -/
def shape_consistent (ds : Dataset) : Prop :=
  ∀ kv ∈ ds.data_vars,
    (∀ d ∈ kv.2.dims, ∃ cc, lookupA d ds.coords = some cc) ∧
    kv.2.data.shapeOk (kv.2.dims.map (fun d => ((lookupA d ds.coords).getD []).length)) = true

/-- Soundness of a subset draw: construction succeeds and every draw is a
duplicate-free, size-bounded sub-selection; the empty input forces the empty
output. -/
def subset_sound {α : Type} [DecidableEq α] (L : List α) (mn : Int) (mx : Option Int) : Prop :=
  ∃ S, subset_lists L mn mx = .ok S ∧
    (∀ R, S R → R.Nodup ∧ mn ≤ (R.length : Int) ∧
      (∀ m, mx = some m → (R.length : Int) ≤ m) ∧ ∀ x ∈ R, x ∈ L) ∧
    (L = [] → ∀ R, S R → R = [])

/-- Soundness of a simple-coordinates draw: every value is `[0, 1, ..., n-1]`
for some in-range `n`, hence duplicate-free. -/
def simple_coords_sound (mn mx : Int) : Prop :=
  ∃ S, simple_coords mn (some mx) = .ok S ∧
    ∀ l, S l → ∃ n : Int, mn ≤ n ∧ n ≤ mx ∧
      l = (List.range n.toNat).map Int.ofNat ∧ l.Nodup

/-- Round-trip property of `fixed_coords_datasets`: the draw reproduces the
requested variables (same order), each variable's dimension list verbatim,
the supplied coordinates verbatim, and data shaped by the coordinate
lengths. -/
def round_trip_ok (vtd : List (HVal × List String)) (coords : List (String × List Int))
    (elements : Strat Int) : Prop :=
  ∃ S, fixed_coords_datasets vtd coords elements = .ok S ∧
    ∀ ds, S ds → ds.coords = coords ∧
      List.Forall₂ (fun p kv => kv.1 = p.1 ∧ kv.2.dims = p.2 ∧
        kv.2.data.shapeOk (p.2.map (fun d => ((lookupA d coords).getD []).length)) = true)
        vtd ds.data_vars

/-- Every Dataset generator keeps variable shapes aligned with the shared
coordinate lengths. -/
def all_generators_shape_consistent : Prop :=
  (∀ vtd coords elements S ds,
     fixed_coords_datasets vtd coords elements = .ok S → S ds → shape_consistent ds)
  ∧ (∀ vtd elements coords_elements min_side max_side coords_st S ds,
     fixed_datasets vtd elements coords_elements min_side max_side coords_st = .ok S →
     S ds → shape_consistent ds)
  ∧ (∀ vtd elements min_side max_side S ds,
     simple_datasets vtd elements min_side max_side = .ok S → S ds → shape_consistent ds)
  ∧ (∀ elements coords_elements min_side max_side min_vars max_vars min_dims max_dims S ds,
     datasets elements coords_elements min_side max_side min_vars max_vars min_dims max_dims
       = .ok S → S ds → shape_consistent ds)

/-- Disjointness of variable and dimension names at every stage: the joint
pair generator, the vars-to-dims mapping generator, the full Dataset
generator, and the concrete rejection of an overlapping candidate. -/
def disjointness_invariant : Prop :=
  (∀ min_vars max_vars min_dims max_dims S p,
     _vars_and_dims_pairs min_vars max_vars min_dims max_dims = .ok S → S p →
     ∀ d ∈ p.2, HVal.str d ∉ p.1)
  ∧ (∀ min_vars max_vars min_dims max_dims S D,
     vars_to_dims_dicts min_vars max_vars min_dims max_dims = .ok S → S D →
     ∀ kv ∈ D, ∀ kw ∈ D, ∀ d ∈ kw.2, kv.1 ≠ HVal.str d)
  ∧ (∀ elements coords_elements min_side max_side min_vars max_vars min_dims max_dims S ds,
     datasets elements coords_elements min_side max_side min_vars max_vars min_dims max_dims
       = .ok S → S ds →
     ∀ kv ∈ ds.data_vars, ∀ cc ∈ ds.coords, kv.1 ≠ HVal.str cc.1)
  ∧ (∀ S, _vars_and_dims_pairs 0 (some 5) 0 (some 5) = .ok S →
     ¬ S ([HVal.str "a", HVal.str "b"], ["a"]))

/-- Dimensions without a per-dimension override strategy always receive
duplicate-free coordinates through the dataarray and dataset pipelines. -/
def unique_default_coords : Prop :=
  (∀ dims elements coords_elements min_side max_side coords_st S da,
     fixed_dataarrays dims elements coords_elements min_side max_side coords_st = .ok S →
     S da → ∀ p ∈ da.coords, lookupA p.1 coords_st = none → p.2.Nodup)
  ∧ (∀ elements coords_elements min_side max_side min_dims max_dims S da,
     dataarrays elements coords_elements min_side max_side min_dims max_dims = .ok S →
     S da → ∀ p ∈ da.coords, p.2.Nodup)
  ∧ (∀ vtd elements coords_elements min_side max_side coords_st S ds,
     fixed_datasets vtd elements coords_elements min_side max_side coords_st = .ok S →
     S ds → ∀ p ∈ ds.coords, lookupA p.1 coords_st = none → p.2.Nodup)
  ∧ (∀ elements coords_elements min_side max_side min_vars max_vars min_dims max_dims S ds,
     datasets elements coords_elements min_side max_side min_vars max_vars min_dims max_dims
       = .ok S → S ds → ∀ p ∈ ds.coords, p.2.Nodup)

/-- An invalid size pair is rejected synchronously by every public
constructor of the labeled-array component, in every bound slot. -/
def bounds_rejected (mn : Int) (mx : Option Int) : Prop :=
  (∀ L : List Int, isErr (subset_lists L mn mx) = true)
  ∧ isErr (xr_dim_lists mn mx) = true
  ∧ isErr (xr_var_lists mn mx) = true
  ∧ (∀ elements, isErr (xr_coords elements mn mx true) = true)
  ∧ isErr (simple_coords mn mx) = true
  ∧ (∀ dims, isErr (xr_coords_dicts dims none mn mx true []) = true)
  ∧ (∀ dims elements, isErr (fixed_dataarrays dims elements none mn mx []) = true)
  ∧ (∀ dims elements, isErr (simple_dataarrays dims elements mn mx) = true)
  ∧ (∀ elements, isErr (dataarrays elements none mn mx 0 (some 5)) = true)
  ∧ (∀ elements, isErr (dataarrays elements none 0 (some 5) mn mx) = true)
  ∧ (∀ vtd elements, isErr (fixed_datasets vtd elements none mn mx []) = true)
  ∧ (∀ vtd elements, isErr (simple_datasets vtd elements mn mx) = true)
  ∧ (∀ elements, isErr (datasets elements none mn mx 0 (some 5) 0 (some 5)) = true)
  ∧ (∀ elements, isErr (datasets elements none 0 (some 5) mn mx 0 (some 5)) = true)
  ∧ (∀ elements, isErr (datasets elements none 0 (some 5) 0 (some 5) mn mx) = true)

/-- Modelled from the spec: shape consistency of one gufunc argument draw.
Some shared symbol binding `b` within the size range gives every argument the
shape extra-dims ++ core-dims, so positions sharing a symbol within or
across arguments carry equal lengths. -/
def Gufunc.consistent_draw (sig : Gufunc.Signature) (elements : Strat Int)
    (min_side max_side max_dims_extra : Nat) (args : List Tensor) : Prop :=
  ∃ (b : String → Nat) (extras : List (List Nat)),
    (∀ s ∈ sig.inputs.flatten, min_side ≤ b s ∧ b s ≤ max_side) ∧
    extras.length = sig.inputs.length ∧
    args.length = sig.inputs.length ∧
    (∀ e ∈ extras, e.length ≤ max_dims_extra ∧ ∀ z ∈ e, min_side ≤ z ∧ z ≤ max_side) ∧
    List.Forall₂ (fun pe t => arrays elements (pe.1 ++ pe.2.map b) t)
      (extras.zip sig.inputs) args ∧
    (∀ i j p q, p < (sig.inputs.getD i []).length → q < (sig.inputs.getD j []).length →
      (sig.inputs.getD i []).getD p "" = (sig.inputs.getD j []).getD q "" →
      ((sig.inputs.getD i []).map b).getD p 0 = ((sig.inputs.getD j []).map b).getD q 0)

theorem ebind_ok_inv {α β : Type} {e : Except String α} {f : α → Except String β} {b : β}
    (h : (e >>= f) = .ok b) : ∃ a, e = .ok a ∧ f a = .ok b := by
  cases e with
  | error msg => simp [Bind.bind, Except.bind] at h
  | ok a => exact ⟨a, rfl, by simpa [Bind.bind, Except.bind] using h⟩

theorem ebind_err {α β : Type} {e : Except String α} (f : α → Except String β)
    (h : isErr e = true) : isErr (e >>= f) = true := by
  cases e with
  | error msg => simp [Bind.bind, Except.bind, isErr]
  | ok a => simp [isErr] at h

theorem isErr_false_iff {α : Type} {e : Except String α} :
    isErr e = false ↔ ∃ a, e = .ok a := by
  cases e <;> simp [isErr]

theorem order_check_ok_iff {name : String} {floor small large : Int} :
    order_check name floor small large = .ok () ↔ (floor ≤ small ∧ small ≤ large) := by
  unfold order_check
  by_cases h1 : small < floor
  · simp only [if_pos h1]
    constructor
    · intro h; exact absurd h (by simp)
    · rintro ⟨ha, _⟩; exact absurd ha (not_le.mpr h1)
  · by_cases h2 : large < small
    · simp only [if_neg h1, if_pos h2]
      constructor
      · intro h; exact absurd h (by simp)
      · rintro ⟨_, hb⟩; exact absurd hb (not_le.mpr h2)
    · simp only [if_neg h1, if_neg h2]
      constructor
      · intro _; exact ⟨not_lt.mp h1, not_lt.mp h2⟩
      · intro _; trivial

theorem order_check_err_iff {name : String} {floor small large : Int} :
    isErr (order_check name floor small large) = true ↔ (small < floor ∨ large < small) := by
  unfold order_check
  by_cases h1 : small < floor
  · simp only [if_pos h1]
    constructor
    · intro _; exact Or.inl h1
    · intro _; rfl
  · by_cases h2 : large < small
    · simp only [if_neg h1, if_pos h2]
      constructor
      · intro _; exact Or.inr h2
      · intro _; rfl
    · simp only [if_neg h1, if_neg h2]
      constructor
      · intro h; simp [isErr] at h
      · rintro (h | h)
        · exact absurd h h1
        · exact absurd h h2

theorem check_ok_iff {mn : Int} {mx : Option Int} {name : String} :
    _check_valid_size_interval mn mx name = .ok () ↔
      (0 ≤ mn ∧ ∀ m, mx = some m → mn ≤ m) := by
  cases mx with
  | none => simp [_check_valid_size_interval, order_check_ok_iff]
  | some m =>
      simp only [_check_valid_size_interval, order_check_ok_iff]
      constructor
      · rintro ⟨h1, h2⟩; exact ⟨h1, fun m' hm => by cases hm; exact h2⟩
      · rintro ⟨h1, h2⟩; exact ⟨h1, h2 m rfl⟩

theorem check_err_iff {mn : Int} {mx : Option Int} {name : String} :
    isErr (_check_valid_size_interval mn mx name) = true ↔
      (mn < 0 ∨ ∃ m, mx = some m ∧ m < mn) := by
  cases mx with
  | none =>
      simp only [_check_valid_size_interval, order_check_err_iff]
      constructor
      · rintro (h | h)
        · exact Or.inl h
        · exact absurd h (lt_irrefl mn)
      · rintro (h | ⟨m', hm, h⟩)
        · exact Or.inl h
        · cases hm
  | some m =>
      simp only [_check_valid_size_interval, order_check_err_iff]
      constructor
      · rintro (h | h)
        · exact Or.inl h
        · exact Or.inr ⟨m, rfl, h⟩
      · rintro (h | ⟨m', hm, h⟩)
        · exact Or.inl h
        · cases hm; exact Or.inr h

theorem mapE_ok_forall₂ {α β : Type} {f : α → Except String β} :
    ∀ {l : List α} {l' : List β}, mapE f l = .ok l' →
      List.Forall₂ (fun a b => f a = .ok b) l l' := by
  intro l
  induction l with
  | nil => intro l' h; simp only [mapE, Except.ok.injEq] at h; subst h; exact .nil
  | cons a rest ih =>
      intro l' h
      simp only [mapE] at h
      obtain ⟨b, hb, h2⟩ := ebind_ok_inv h
      obtain ⟨bs, hbs, h3⟩ := ebind_ok_inv h2
      cases h3
      exact .cons hb (ih hbs)

theorem mapE_ok_of_forall {α β : Type} {f : α → Except String β} :
    ∀ {l : List α}, (∀ a ∈ l, ∃ b, f a = .ok b) → ∃ l', mapE f l = .ok l' := by
  intro l
  induction l with
  | nil => intro _; exact ⟨[], rfl⟩
  | cons a rest ih =>
      intro h
      obtain ⟨b, hb⟩ := h a (by simp)
      obtain ⟨bs, hbs⟩ := ih (fun x hx => h x (by simp [hx]))
      exact ⟨b :: bs, by simp [mapE, hb, hbs, Bind.bind, Except.bind]⟩

theorem forallTwo_mem_right {α β : Type} {R : α → β → Prop} {l₁ : List α} {l₂ : List β}
    (h : List.Forall₂ R l₁ l₂) : ∀ b ∈ l₂, ∃ a ∈ l₁, R a b := by
  induction h with
  | nil => intro b hb; cases hb
  | cons hab _ ih =>
      intro b hb
      rcases List.mem_cons.mp hb with h' | h'
      · subst h'; exact ⟨_, List.mem_cons_self _ _, hab⟩
      · obtain ⟨a, ha, har⟩ := ih b h'
        exact ⟨a, List.mem_cons_of_mem _ ha, har⟩

theorem lookupA_some_mem {κ α : Type} [DecidableEq κ] {k : κ} {v : α} :
    ∀ {l : List (κ × α)}, lookupA k l = some v → (k, v) ∈ l := by
  intro l
  induction l with
  | nil => intro h; simp [lookupA] at h
  | cons p ps ih =>
      intro h
      simp only [lookupA] at h
      by_cases hk : p.1 = k
      · rw [if_pos hk] at h
        cases h
        exact List.mem_cons.mpr (Or.inl (by rw [← hk]))
      · rw [if_neg hk] at h
        exact List.mem_cons_of_mem _ (ih h)

theorem subset_lists_ok_elim {α : Type} [DecidableEq α] {L : List α} {mn : Int}
    {mx : Option Int} {S : Strat (List α)}
    (h : subset_lists L mn mx = .ok S) :
    ∃ M : Int,
      S = listsSt (if (L.dedup.length : Int) = 0 then nothingSt else sampled_from L)
            mn (some M) true
      ∧ M ≤ (L.dedup.length : Int)
      ∧ (∀ m, mx = some m → M ≤ m)
      ∧ ((mx = none ∨ ∃ m, mx = some m ∧ (L.dedup.length : Int) ≤ m) →
          M = (L.dedup.length : Int))
      ∧ 0 ≤ mn ∧ mn ≤ (L.dedup.length : Int) ∧ (∀ m, mx = some m → mn ≤ m) := by
  simp only [subset_lists] at h
  obtain ⟨u1, hc1, h2⟩ := ebind_ok_inv h
  obtain ⟨u2, hc2, h3⟩ := ebind_ok_inv h2
  cases u1; cases u2
  have hv1 := check_ok_iff.mp hc1
  have hv2 := order_check_ok_iff.mp hc2
  cases mx with
  | none =>
      cases h3
      exact ⟨_, rfl, le_refl _, by simp, fun _ => rfl, hv1.1, hv2.2, hv1.2⟩
  | some m =>
      cases h3
      refine ⟨_, rfl, min_le_left _ _, ?_, ?_, hv1.1, hv2.2, hv1.2⟩
      · intro m' hm'; cases hm'; exact min_le_right _ _
      · rintro (h' | ⟨m', hm', h'⟩)
        · cases h'
        · cases hm'; exact min_eq_left h'

theorem subset_lists_mem {α : Type} [DecidableEq α] {L : List α} {mn : Int}
    {mx : Option Int} {S : Strat (List α)} {R : List α}
    (h : subset_lists L mn mx = .ok S) (hR : S R) :
    R.Nodup ∧ mn ≤ (R.length : Int) ∧ (R.length : Int) ≤ (L.dedup.length : Int) ∧
    (∀ m, mx = some m → (R.length : Int) ≤ m) ∧ ∀ x ∈ R, x ∈ L := by
  obtain ⟨M, hSeq, hMle, hMsome, _, h0, hu, hm⟩ := subset_lists_ok_elim h
  subst hSeq
  obtain ⟨hlen, hmax, helems, huniq⟩ := hR
  have hmax' := hmax M rfl
  refine ⟨huniq rfl, hlen, le_trans hmax' hMle, ?_, ?_⟩
  · intro m hm'
    exact le_trans hmax' (hMsome m hm')
  · intro x hx
    have := helems x hx
    by_cases hz : (L.dedup.length : Int) = 0
    · rw [if_pos hz] at this; cases this
    · rw [if_neg hz] at this; exact this

theorem subset_lists_isErr_false {α : Type} [DecidableEq α] {L : List α} {mn : Int}
    {mx : Option Int} (h0 : 0 ≤ mn) (h1 : ∀ m, mx = some m → mn ≤ m)
    (h2 : mn ≤ (L.dedup.length : Int)) :
    isErr (subset_lists L mn mx) = false := by
  have hc1 : _check_valid_size_interval mn mx "subset list size" = .ok () :=
    check_ok_iff.mpr ⟨h0, h1⟩
  have hc2 : order_check "input list size" 0 mn ((L.dedup.length : Int)) = .ok () :=
    order_check_ok_iff.mpr ⟨h0, h2⟩
  simp only [subset_lists, hc1, hc2, Bind.bind, Except.bind, isErr]

theorem subset_lists_ok_of {α : Type} [DecidableEq α] {L : List α} {mn : Int}
    {mx : Option Int} (h0 : 0 ≤ mn) (h1 : ∀ m, mx = some m → mn ≤ m)
    (h2 : mn ≤ (L.dedup.length : Int)) :
    ∃ S, subset_lists L mn mx = .ok S :=
  isErr_false_iff.mp (subset_lists_isErr_false h0 h1 h2)

/-- Claim C4: with valid bounds not exceeding the number of unique elements,
every subset draw is a duplicate-free, size-bounded sub-selection of the
input list, and an empty input always yields the empty list. -/
theorem claim_C4 {α : Type} [DecidableEq α] (L : List α) (mn : Int) (mx : Option Int)
    (h0 : 0 ≤ mn) (h1 : ∀ m, mx = some m → mn ≤ m)
    (h2 : mn ≤ (L.dedup.length : Int)) : subset_sound L mn mx := by
  obtain ⟨S, hS⟩ := subset_lists_ok_of h0 h1 h2
  refine ⟨S, hS, ?_, ?_⟩
  · intro R hR
    obtain ⟨hnd, hl, _, hmx, hsub⟩ := subset_lists_mem hS hR
    exact ⟨hnd, hl, hmx, hsub⟩
  · intro hL R hR
    obtain ⟨_, _, hle, _, _⟩ := subset_lists_mem hS hR
    subst hL
    simp only [List.dedup_nil, List.length_nil, Nat.cast_zero] at hle
    have : R.length = 0 := by omega
    exact List.eq_nil_of_length_eq_zero this

/-- Witness for claim C4 at the concrete scenario `subset_lists([], 0, 5)`. -/
theorem claim_C4_witness : subset_sound ([] : List Int) 0 (some 5) :=
  claim_C4 ([] : List Int) 0 (some 5) (by decide) (by intro m hm; cases hm; decide)
    (by decide)

/-- Counterexample to claim C9 as stated: `subset_lists([0,1,2], 2, 1)` raises
a validation error although `min_size = 2` does not exceed the number (3) of
unique elements, because the bound pair itself is invalid. -/
theorem claim_C9_counterexample :
    isErr (subset_lists ([0, 1, 2] : List Int) 2 (some 1)) = true
    ∧ (2 : Int) ≤ (([0, 1, 2] : List Int).dedup.length : Int) := by
  constructor
  · decide
  · decide

/-- Claim C9 (amended): `subset_lists` raises a validation error at
construction time exactly when the bound pair is invalid (negative minimum or
maximum below minimum) or `min_size` exceeds the number of unique elements;
otherwise an over-large or absent maximum is clamped to the number of unique
elements: drawn lengths never exceed it, and the full deduplicated list is
itself drawable. -/
theorem claim_C9_amended {α : Type} [DecidableEq α] (L : List α) (mn : Int)
    (mx : Option Int) :
    (isErr (subset_lists L mn mx) = true ↔
      (mn < 0 ∨ (∃ m, mx = some m ∧ m < mn) ∨ (L.dedup.length : Int) < mn))
    ∧ (∀ S, subset_lists L mn mx = .ok S →
        (∀ R, S R → (R.length : Int) ≤ (L.dedup.length : Int))
        ∧ ((mx = none ∨ ∃ m, mx = some m ∧ (L.dedup.length : Int) ≤ m) → S L.dedup)) := by
  constructor
  · constructor
    · intro h
      by_contra hcon
      rw [not_or, not_or] at hcon
      obtain ⟨hc0, hc1, hc2⟩ := hcon
      have h1 : ∀ m, mx = some m → mn ≤ m := by
        intro m hm
        by_contra hlt
        exact hc1 ⟨m, hm, by omega⟩
      have hff := subset_lists_isErr_false (L := L) (by omega) h1 (by omega)
      rw [h] at hff
      simp at hff
    · intro h
      rcases h with h | ⟨m, hm, h⟩ | h
      · apply ebind_err
        exact check_err_iff.mpr (Or.inl h)
      · apply ebind_err
        exact check_err_iff.mpr (Or.inr ⟨m, hm, h⟩)
      · simp only [subset_lists]
        cases e : _check_valid_size_interval mn mx "subset list size" with
        | error msg =>
            simp [Bind.bind, Except.bind, isErr]
        | ok u =>
            cases u
            simp only [Bind.bind, Except.bind]
            apply ebind_err
            exact order_check_err_iff.mpr (Or.inr h)
  · intro S hS
    obtain ⟨M, hSeq, hMle, hMsome, hMclamp, h0, hu, hm⟩ := subset_lists_ok_elim hS
    constructor
    · intro R hR
      exact (subset_lists_mem hS hR).2.2.1
    · intro hclamp
      subst hSeq
      have hMeq := hMclamp hclamp
      refine ⟨hu, ?_, ?_, fun _ => L.nodup_dedup⟩
      · intro m hm'
        cases hm'
        rw [hMeq]
      · intro x hx
        by_cases hz : (L.dedup.length : Int) = 0
        · rw [if_pos hz]
          have hnil : L.dedup = [] := by
            have hlen0 : L.dedup.length = 0 := by exact_mod_cast hz
            exact List.eq_nil_of_length_eq_zero hlen0
          rw [hnil] at hx
          cases hx
        · rw [if_neg hz]
          exact List.mem_dedup.mp hx

/-- Witness for the amended claim C9: `subset_lists([5], 2, None)` fails
validation because the minimum exceeds the single unique element. -/
theorem claim_C9_witness : isErr (subset_lists ([5] : List Int) 2 none) = true :=
  (claim_C9_amended ([5] : List Int) 2 none).1.mpr (Or.inr (Or.inr (by decide)))

theorem get_all_dims_sorted (vtd : List (HVal × List String)) :
    (_get_all_dims vtd).Sorted (· ≤ ·) :=
  List.sorted_insertionSort _ _

theorem get_all_dims_nodup (vtd : List (HVal × List String)) :
    (_get_all_dims vtd).Nodup :=
  (List.perm_insertionSort _ _).nodup_iff.mpr (List.nodup_dedup _)

theorem get_all_dims_mem (vtd : List (HVal × List String)) (x : String) :
    x ∈ _get_all_dims vtd ↔ ∃ p ∈ vtd, x ∈ p.2 := by
  unfold _get_all_dims
  rw [(List.perm_insertionSort _ _).mem_iff, List.mem_dedup, List.mem_flatten]
  constructor
  · rintro ⟨l, hl, hx⟩
    obtain ⟨p, hp, hpl⟩ := List.mem_map.mp hl
    exact ⟨p, hp, by rw [hpl]; exact hx⟩
  · rintro ⟨p, hp, hx⟩
    exact ⟨p.2, List.mem_map.mpr ⟨p, hp, rfl⟩, hx⟩

/-- Claim C6: `_get_all_dims` computes the sorted, duplicate-free union of
the per-variable dimension lists. -/
theorem claim_C6 (vtd : List (HVal × List String)) :
    (_get_all_dims vtd).Sorted (· ≤ ·) ∧ (_get_all_dims vtd).Nodup ∧
    ∀ x, x ∈ _get_all_dims vtd ↔ ∃ p ∈ vtd, x ∈ p.2 :=
  ⟨get_all_dims_sorted vtd, get_all_dims_nodup vtd, get_all_dims_mem vtd⟩

/-- Claim C7: every draw of `simple_coords(min_side, max_side)` with valid
bounds is `[0, 1, ..., n-1]` for some `n` in range, hence duplicate-free. -/
theorem claim_C7 (mn mx : Int) (h0 : 0 ≤ mn) (h1 : mn ≤ mx) :
    simple_coords_sound mn mx := by
  have hc : _check_valid_size_interval mn (some mx) "side" = .ok () :=
    check_ok_iff.mpr ⟨h0, fun m hm => by cases hm; exact h1⟩
  refine ⟨mapSt (integersSt (some mn) (some mx))
    (fun n => (List.range n.toNat).map Int.ofNat), ?_, ?_⟩
  · simp only [simple_coords, hc, Bind.bind, Except.bind]
  · intro l hl
    obtain ⟨n, ⟨hlo, hhi⟩, hmap⟩ := hl
    refine ⟨n, hlo _ rfl, hhi _ rfl, hmap, ?_⟩
    rw [hmap]
    exact (List.nodup_range _).map (fun a b hab => Int.ofNat.inj hab)

/-- Witness for claim C7 at bounds `[1, 3]`. -/
theorem claim_C7_witness : simple_coords_sound 1 3 :=
  claim_C7 1 3 (by decide) (by decide)

theorem ebind_ok_err {α β : Type} {e : Except String α} {a : α} {f : α → Except String β}
    (he : e = .ok a) (h : isErr (f a) = true) : isErr (e >>= f) = true := by
  subst he
  simpa [Bind.bind, Except.bind] using h

/-- Claim C8: an invalid bound pair (negative minimum, or maximum below
minimum) is rejected synchronously by every public constructor of the
labeled-array component, in each bound slot, before any draw. -/
theorem claim_C8 (mn : Int) (mx : Option Int)
    (h : mn < 0 ∨ ∃ m, mx = some m ∧ m < mn) : bounds_rejected mn mx := by
  have hchk : ∀ name, isErr (_check_valid_size_interval mn mx name) = true :=
    fun name => check_err_iff.mpr h
  refine ⟨?_, ?_, ?_, ?_, ?_, ?_, ?_, ?_, ?_, ?_, ?_, ?_, ?_, ?_, ?_⟩
  · intro L; exact ebind_err _ (hchk _)
  · exact ebind_err _ (hchk _)
  · exact ebind_err _ (hchk _)
  · intro elements; exact ebind_err _ (hchk _)
  · exact ebind_err _ (hchk _)
  · intro dims; exact ebind_err _ (hchk _)
  · intro dims elements; exact ebind_err _ (hchk _)
  · intro dims elements; exact ebind_err _ (hchk _)
  · intro elements; exact ebind_err _ (hchk _)
  · intro elements; exact ebind_ok_err rfl (ebind_err _ (hchk _))
  · intro vtd elements; exact ebind_err _ (hchk _)
  · intro vtd elements; exact ebind_err _ (hchk _)
  · intro elements; exact ebind_err _ (hchk _)
  · intro elements; exact ebind_ok_err rfl (ebind_err _ (hchk _))
  · intro elements; exact ebind_ok_err rfl (ebind_ok_err rfl (ebind_err _ (hchk _)))

/-- Witness for claim C8 at the invalid pair `(2, 1)`. -/
theorem claim_C8_witness : bounds_rejected 2 (some 1) :=
  claim_C8 2 (some 1) (Or.inr ⟨1, rfl, by decide⟩)

theorem forallTwo_comp {α β γ : Type} {R : α → β → Prop} {T : β → γ → Prop} :
    ∀ {l₁ : List α} {l₂ : List β} {l₃ : List γ},
      List.Forall₂ R l₁ l₂ → List.Forall₂ T l₂ l₃ →
      List.Forall₂ (fun a c => ∃ b, R a b ∧ T b c) l₁ l₃ := by
  intro l₁ l₂ l₃ h1
  induction h1 generalizing l₃ with
  | nil => intro h2; cases h2; exact .nil
  | cons hab htail ih =>
      intro h2
      cases h2 with
      | cons hbc htail2 => exact .cons ⟨_, hab, hbc⟩ (ih htail2)

theorem fixed_dict_keys {κ α : Type} {C : List (κ × Strat α)} {d : List (κ × α)}
    (h : fixed_dictionaries C d) : d.map Prod.fst = C.map Prod.fst := by
  have h' : List.Forall₂ (fun c kv => kv.1 = c.1 ∧ c.2 kv.2) C d := h
  clear h
  induction h' with
  | nil => rfl
  | cons hab _ ih => simp only [List.map_cons, ih, hab.1]

theorem xr_coords_ok_elim {elements : Option (Strat Int)} {mn : Int} {mx : Option Int}
    {u : Bool} {S : Strat (List Int)}
    (h : xr_coords elements mn mx u = .ok S) :
    S = listsSt (elements.getD (integersSt none none)) mn mx u := by
  simp only [xr_coords] at h
  obtain ⟨u1, _, h2⟩ := ebind_ok_inv h
  cases u1
  cases h2
  rfl

theorem xr_coords_dicts_ok_elim {dims : List String} {elements : Option (Strat Int)}
    {mn : Int} {mx : Option Int} {u : Bool} {cst : List (String × Strat (List Int))}
    {S : Strat (List (String × List Int))}
    (h : xr_coords_dicts dims elements mn mx u cst = .ok S) :
    S = fixed_dictionaries (dims.map (fun dd => (dd,
        (lookupA dd cst).getD (listsSt (elements.getD (integersSt none none)) mn mx u)))) := by
  simp only [xr_coords_dicts] at h
  obtain ⟨u1, _, h2⟩ := ebind_ok_inv h
  cases u1
  obtain ⟨D, hD, h3⟩ := ebind_ok_inv h2
  have hDe := xr_coords_ok_elim hD
  subst hDe
  cases h3
  rfl

theorem coords_dict_nodup {dims : List String} {elements : Option (Strat Int)}
    {mn : Int} {mx : Option Int} {cst : List (String × Strat (List Int))}
    {S : Strat (List (String × List Int))} {C : List (String × List Int)}
    (h : xr_coords_dicts dims elements mn mx true cst = .ok S) (hC : S C) :
    ∀ p ∈ C, lookupA p.1 cst = none → p.2.Nodup := by
  have hSe := xr_coords_dicts_ok_elim h
  subst hSe
  intro p hp hnone
  obtain ⟨c, hc, h1, h2⟩ := forallTwo_mem_right hC p hp
  obtain ⟨dd, _, hceq⟩ := List.mem_map.mp hc
  subst hceq
  rw [h1] at hnone
  rw [hnone] at h2
  exact h2.2.2.2 rfl

theorem map_fst_map_pair {κ γ : Type} (g : κ → γ) (l : List κ) :
    ((l.map (fun k => (k, g k))).map Prod.fst) = l := by
  induction l with
  | nil => rfl
  | cons a rest ih => simp [ih]

theorem coords_dict_keys {dims : List String} {elements : Option (Strat Int)}
    {mn : Int} {mx : Option Int} {u : Bool} {cst : List (String × Strat (List Int))}
    {S : Strat (List (String × List Int))} {C : List (String × List Int)}
    (h : xr_coords_dicts dims elements mn mx u cst = .ok S) (hC : S C) :
    C.map Prod.fst = dims := by
  have hSe := xr_coords_dicts_ok_elim h
  subst hSe
  rw [fixed_dict_keys hC]
  exact map_fst_map_pair _ dims

theorem shape_of_mapE {coords : List (String × List Int)} :
    ∀ {dims : List String} {shape : List Nat},
    mapE (fun dd => match lookupA dd coords with
      | some cc => Except.ok cc.length
      | none => Except.error "KeyError") dims = .ok shape →
    shape = dims.map (fun d => ((lookupA d coords).getD []).length)
    ∧ ∀ d ∈ dims, ∃ cc, lookupA d coords = some cc := by
  intro dims
  induction dims with
  | nil =>
      intro shape h
      simp only [mapE, Except.ok.injEq] at h
      subst h
      exact ⟨rfl, by simp⟩
  | cons d rest ih =>
      intro shape h
      simp only [mapE] at h
      obtain ⟨b, hb, h2⟩ := ebind_ok_inv h
      obtain ⟨bs, hbs, h3⟩ := ebind_ok_inv h2
      cases h3
      cases hcc : lookupA d coords with
      | none => simp [hcc] at hb
      | some cc =>
          simp only [hcc, Except.ok.injEq] at hb
          subst hb
          obtain ⟨ih1, ih2⟩ := ih hbs
          constructor
          · simp [ih1, hcc]
          · intro d' hd'
            rcases List.mem_cons.mp hd' with h' | h'
            · subst h'; exact ⟨cc, hcc⟩
            · exact ih2 d' h'

theorem fca_ok_elim {dims : List String} {coords : List (String × List Int)}
    {elements : Strat Int} {S : Strat DataArray}
    (h : fixed_coords_dataarrays dims coords elements = .ok S) :
    ∃ shape, mapE (fun dd => match lookupA dd coords with
        | some cc => Except.ok cc.length
        | none => Except.error "KeyError") dims = .ok shape ∧
      S = mapSt (arrays elements shape)
        (fun data => DataArray.mk data dims
          (coords.filter (fun p => decide (p.1 ∈ dims)))) := by
  simp only [fixed_coords_dataarrays] at h
  obtain ⟨shape, hsh, h2⟩ := ebind_ok_inv h
  cases h2
  exact ⟨shape, hsh, rfl⟩

theorem fca_ok_of {dims : List String} {coords : List (String × List Int)}
    (elements : Strat Int)
    (h : ∀ d ∈ dims, ∃ cc, lookupA d coords = some cc) :
    ∃ S, fixed_coords_dataarrays dims coords elements = .ok S := by
  have hall : ∀ d ∈ dims, ∃ b, (fun dd => match lookupA dd coords with
      | some cc => Except.ok cc.length
      | none => Except.error "KeyError") d = Except.ok b := by
    intro d hd
    obtain ⟨cc, hcc⟩ := h d hd
    exact ⟨cc.length, by simp [hcc]⟩
  obtain ⟨shape, hsh⟩ := mapE_ok_of_forall hall
  exact ⟨mapSt (arrays elements shape)
      (fun data => DataArray.mk data dims (coords.filter (fun p => decide (p.1 ∈ dims)))),
    by simp only [fixed_coords_dataarrays, hsh, Bind.bind, Except.bind]⟩

theorem fcd_ok_elim {vtd : List (HVal × List String)} {coords : List (String × List Int)}
    {elements : Strat Int} {S : Strat Dataset}
    (h : fixed_coords_datasets vtd coords elements = .ok S) :
    ∃ C, mapE (fun p => fixed_coords_dataarrays p.2 coords elements >>=
          fun st => Except.ok (p.1, st)) vtd = .ok C ∧
      S = mapSt (fixed_dictionaries C) (fun data => Dataset.mk data coords) := by
  simp only [fixed_coords_datasets] at h
  obtain ⟨C, hC, h2⟩ := ebind_ok_inv h
  cases h2
  exact ⟨C, hC, rfl⟩

theorem fcd_mem {vtd : List (HVal × List String)} {coords : List (String × List Int)}
    {elements : Strat Int} {S : Strat Dataset} {ds : Dataset}
    (h : fixed_coords_datasets vtd coords elements = .ok S) (hds : S ds) :
    ds.coords = coords ∧
    List.Forall₂ (fun p kv => kv.1 = p.1 ∧ kv.2.dims = p.2 ∧
        kv.2.coords = coords.filter (fun q => decide (q.1 ∈ p.2)) ∧
        (∀ d ∈ p.2, ∃ cc, lookupA d coords = some cc) ∧
        kv.2.data.shapeOk (p.2.map (fun d => ((lookupA d coords).getD []).length)) = true)
      vtd ds.data_vars := by
  obtain ⟨C, hC, hS⟩ := fcd_ok_elim h
  subst hS
  obtain ⟨data, hdata, hdseq⟩ := hds
  subst hdseq
  refine ⟨rfl, ?_⟩
  have h3 := forallTwo_comp (mapE_ok_forall₂ hC) hdata
  refine List.Forall₂.imp ?_ h3
  rintro p ⟨kvk, kvv⟩ ⟨c, hpc, hkv1, hkv2⟩
  obtain ⟨st, hst, hceq⟩ := ebind_ok_inv hpc
  cases hceq
  obtain ⟨shape, hsh, hSeq⟩ := fca_ok_elim hst
  subst hSeq
  obtain ⟨d', hd', hkveq⟩ := hkv2
  obtain ⟨hsheq, hcov⟩ := shape_of_mapE hsh
  subst hsheq
  subst hkveq
  exact ⟨hkv1, rfl, rfl, hcov, hd'.1⟩

/-- Claim C2: `fixed_coords_datasets` with coordinates covering every used
dimension reproduces exactly the requested variables, dimension lists and
coordinates, with data shaped by the coordinate lengths. -/
theorem claim_C2 (vtd : List (HVal × List String)) (coords : List (String × List Int))
    (elements : Strat Int)
    (hcov : ∀ p ∈ vtd, ∀ d ∈ p.2, (lookupA d coords).isSome = true) :
    round_trip_ok vtd coords elements := by
  have hstep : ∀ p ∈ vtd, ∃ c,
      (fixed_coords_dataarrays p.2 coords elements >>= fun st => Except.ok (p.1, st)) = .ok c := by
    intro p hp
    obtain ⟨Sp, hSp⟩ := fca_ok_of elements (fun d hd =>
      Option.isSome_iff_exists.mp (hcov p hp d hd))
    exact ⟨(p.1, Sp), by simp [hSp, Bind.bind, Except.bind]⟩
  obtain ⟨C, hC⟩ := mapE_ok_of_forall hstep
  have hok : fixed_coords_datasets vtd coords elements =
      .ok (mapSt (fixed_dictionaries C) (fun data => Dataset.mk data coords)) := by
    simp only [fixed_coords_datasets, hC]
    simp [Bind.bind, Except.bind]
  refine ⟨_, hok, ?_⟩
  intro ds hds
  obtain ⟨hcoords, hfa⟩ := fcd_mem hok hds
  exact ⟨hcoords, hfa.imp (fun p kv hpk => ⟨hpk.1, hpk.2.1, hpk.2.2.2.2⟩)⟩

/-- Witness for claim C2 at the concrete temp/humidity scenario. -/
theorem claim_C2_witness : round_trip_ok
    [(HVal.str "temp", ["x", "y"]), (HVal.str "humidity", ["x"])]
    [("x", [0, 1]), ("y", [10, 20, 30])] (fun _ => True) :=
  claim_C2 _ _ _ (by decide)

theorem fcd_shape_consistent {vtd : List (HVal × List String)}
    {coords : List (String × List Int)} {elements : Strat Int} {S : Strat Dataset}
    {ds : Dataset}
    (h : fixed_coords_datasets vtd coords elements = .ok S) (hds : S ds) :
    shape_consistent ds := by
  obtain ⟨hcoords, hfa⟩ := fcd_mem h hds
  intro kv hkv
  obtain ⟨p, _, h1, h2, h3, h4, h5⟩ := forallTwo_mem_right hfa kv hkv
  constructor
  · intro d hd
    rw [h2] at hd
    rw [hcoords]
    exact h4 d hd
  · rw [h2, hcoords]
    exact h5

theorem fixed_datasets_ok_elim {vtd : List (HVal × List String)} {elements : Strat Int}
    {coords_elements : Option (Strat Int)} {mns : Int} {mxs : Option Int}
    {cst : List (String × Strat (List Int))} {S : Strat Dataset}
    (h : fixed_datasets vtd elements coords_elements mns mxs cst = .ok S) :
    ∃ CS, xr_coords_dicts (_get_all_dims vtd) coords_elements mns mxs true cst = .ok CS ∧
      S = flatMapE CS (fun cc => fixed_coords_datasets vtd cc elements) := by
  simp only [fixed_datasets] at h
  obtain ⟨u1, _, h2⟩ := ebind_ok_inv h
  cases u1
  obtain ⟨CS, hCS, h3⟩ := ebind_ok_inv h2
  cases h3
  exact ⟨CS, hCS, rfl⟩

theorem fixed_datasets_shape {vtd : List (HVal × List String)} {elements : Strat Int}
    {coords_elements : Option (Strat Int)} {mns : Int} {mxs : Option Int}
    {cst : List (String × Strat (List Int))} {S : Strat Dataset} {ds : Dataset}
    (h : fixed_datasets vtd elements coords_elements mns mxs cst = .ok S) (hds : S ds) :
    shape_consistent ds := by
  obtain ⟨CS, _, hS⟩ := fixed_datasets_ok_elim h
  subst hS
  obtain ⟨cc, _, T, hT, hTds⟩ := hds
  exact fcd_shape_consistent hT hTds

theorem simple_datasets_ok_elim {vtd : List (HVal × List String)} {elements : Strat Int}
    {mns : Int} {mxs : Option Int} {S : Strat Dataset}
    (h : simple_datasets vtd elements mns mxs = .ok S) :
    ∃ dst, simple_coords mns mxs = .ok dst ∧
      fixed_datasets vtd elements none 0 (some DEFAULT_SIDE)
        ((_get_all_dims vtd).map (fun dd => (dd, dst))) = .ok S := by
  simp only [simple_datasets] at h
  obtain ⟨u1, _, h2⟩ := ebind_ok_inv h
  cases u1
  obtain ⟨dst, hdst, h3⟩ := ebind_ok_inv h2
  exact ⟨dst, hdst, h3⟩

theorem datasets_ok_elim {elements : Strat Int} {coords_elements : Option (Strat Int)}
    {mns : Int} {mxs : Option Int} {mnv : Int} {mxv : Option Int} {mnd : Int}
    {mxd : Option Int} {S : Strat Dataset}
    (h : datasets elements coords_elements mns mxs mnv mxv mnd mxd = .ok S) :
    ∃ V, vars_to_dims_dicts mnv mxv mnd mxd = .ok V ∧
      S = flatMapE V (fun vtd =>
        fixed_datasets vtd elements coords_elements mns mxs []) := by
  simp only [datasets] at h
  obtain ⟨u1, _, h2⟩ := ebind_ok_inv h
  cases u1
  obtain ⟨u2, _, h3⟩ := ebind_ok_inv h2
  cases u2
  obtain ⟨u3, _, h4⟩ := ebind_ok_inv h3
  cases u3
  obtain ⟨V, hV, h5⟩ := ebind_ok_inv h4
  cases h5
  exact ⟨V, hV, rfl⟩

/-- Claim C3: every Dataset generator produces variables whose raw data shape
is exactly the tuple of shared coordinate lengths in the variable's own
dimension order. -/
theorem claim_C3 : all_generators_shape_consistent := by
  refine ⟨?_, ?_, ?_, ?_⟩
  · intro vtd coords elements S ds h hds
    exact fcd_shape_consistent h hds
  · intro vtd elements coords_elements mns mxs cst S ds h hds
    exact fixed_datasets_shape h hds
  · intro vtd elements mns mxs S ds h hds
    obtain ⟨dst, _, h2⟩ := simple_datasets_ok_elim h
    exact fixed_datasets_shape h2 hds
  · intro elements coords_elements mns mxs mnv mxv mnd mxd S ds h hds
    obtain ⟨V, _, hS⟩ := datasets_ok_elim h
    subst hS
    obtain ⟨vtd, _, T, hT, hTds⟩ := hds
    exact fixed_datasets_shape hT hTds

theorem pairs_ok_elim {mnv : Int} {mxv : Option Int} {mnd : Int} {mxd : Option Int}
    {S : Strat (List HVal × List String)}
    (h : _vars_and_dims_pairs mnv mxv mnd mxd = .ok S) :
    ∃ V D, xr_var_lists mnv mxv = .ok V ∧ xr_dim_lists mnd mxd = .ok D ∧
      S = filterSt (tuplesSt V D) no_overlap := by
  simp only [_vars_and_dims_pairs] at h
  obtain ⟨V, hV, h2⟩ := ebind_ok_inv h
  obtain ⟨D, hD, h3⟩ := ebind_ok_inv h2
  cases h3
  exact ⟨V, D, hV, hD, rfl⟩

theorem pairs_no_overlap {mnv : Int} {mxv : Option Int} {mnd : Int} {mxd : Option Int}
    {S : Strat (List HVal × List String)} {p : List HVal × List String}
    (h : _vars_and_dims_pairs mnv mxv mnd mxd = .ok S) (hp : S p) : no_overlap p := by
  obtain ⟨V, D, _, _, hS⟩ := pairs_ok_elim h
  subst hS
  exact hp.2

theorem vtd_dicts_ok_elim {mnv : Int} {mxv : Option Int} {mnd : Int} {mxd : Option Int}
    {S : Strat (List (HVal × List String))}
    (h : vars_to_dims_dicts mnv mxv mnd mxd = .ok S) :
    ∃ P, _vars_and_dims_pairs mnv mxv mnd mxd = .ok P ∧
      S = flatMapE P (fun p => subset_lists p.2 mnd mxd >>= fun dim_st =>
        Except.ok (fixed_dictionaries (p.1.map (fun vv => (vv, dim_st))))) := by
  simp only [vars_to_dims_dicts] at h
  obtain ⟨u1, _, h2⟩ := ebind_ok_inv h
  cases u1
  obtain ⟨u2, _, h3⟩ := ebind_ok_inv h2
  cases u2
  obtain ⟨P, hP, h4⟩ := ebind_ok_inv h3
  cases h4
  exact ⟨P, hP, rfl⟩

theorem vtd_dicts_disjoint {mnv : Int} {mxv : Option Int} {mnd : Int} {mxd : Option Int}
    {S : Strat (List (HVal × List String))} {D : List (HVal × List String)}
    (h : vars_to_dims_dicts mnv mxv mnd mxd = .ok S) (hD : S D) :
    ∀ kv ∈ D, ∀ kw ∈ D, ∀ d ∈ kw.2, kv.1 ≠ HVal.str d := by
  obtain ⟨P, hP, hS⟩ := vtd_dicts_ok_elim h
  subst hS
  obtain ⟨p, hp, T, hT, hTD⟩ := hD
  have hno := pairs_no_overlap hP hp
  obtain ⟨dim_st, hds, hTeq⟩ := ebind_ok_inv hT
  cases hTeq
  intro kv hkv kw hkw d hd
  obtain ⟨c1, hc1, hk1, _⟩ := forallTwo_mem_right hTD kv hkv
  obtain ⟨c2, hc2, _, hk2v⟩ := forallTwo_mem_right hTD kw hkw
  obtain ⟨vv1, hvv1, hc1eq⟩ := List.mem_map.mp hc1
  subst hc1eq
  obtain ⟨vv2, _, hc2eq⟩ := List.mem_map.mp hc2
  subst hc2eq
  have hk1v : kv.1 = vv1 := hk1
  have hk2v' : dim_st kw.2 := hk2v
  have hdp2 : d ∈ p.2 := (subset_lists_mem hds hk2v').2.2.2.2 d hd
  intro heq
  refine hno d hdp2 ?_
  rw [← heq, hk1v]
  exact hvv1

/-- Claim C5: variable names and dimension names are disjoint at every
stage, and an overlapping candidate pair is rejected by the filter. -/
theorem claim_C5 : disjointness_invariant := by
  refine ⟨?_, ?_, ?_, ?_⟩
  · intro mnv mxv mnd mxd S p h hp
    exact pairs_no_overlap h hp
  · intro mnv mxv mnd mxd S D h hD
    exact vtd_dicts_disjoint h hD
  · intro elements coords_elements mns mxs mnv mxv mnd mxd S ds h hds kv hkv cc hcc
    obtain ⟨V, hV, hS⟩ := datasets_ok_elim h
    subst hS
    obtain ⟨vtd, hvtd, T, hT, hTds⟩ := hds
    obtain ⟨CS, hCS, hT2⟩ := fixed_datasets_ok_elim hT
    subst hT2
    obtain ⟨C, hc_mem, T2, hT2ok, hT2ds⟩ := hTds
    obtain ⟨hdscoords, hfa⟩ := fcd_mem hT2ok hT2ds
    obtain ⟨p, hp, hkv1, _⟩ := forallTwo_mem_right hfa kv hkv
    rw [hdscoords] at hcc
    have hkeys := coords_dict_keys hCS hc_mem
    have hcc1 : cc.1 ∈ _get_all_dims vtd := by
      rw [← hkeys]
      exact List.mem_map.mpr ⟨cc, hcc, rfl⟩
    obtain ⟨p', hp', hdin⟩ := (get_all_dims_mem vtd cc.1).mp hcc1
    have hdisj := vtd_dicts_disjoint hV hvtd p hp p' hp' cc.1 hdin
    rw [hkv1]
    exact hdisj
  · intro S hS hmem
    obtain ⟨V, D, _, _, hSe⟩ := pairs_ok_elim hS
    subst hSe
    exact hmem.2 "a" (by simp) (by simp)

theorem fixed_dataarrays_ok_elim {dims : List String} {elements : Strat Int}
    {coords_elements : Option (Strat Int)} {mns : Int} {mxs : Option Int}
    {cst : List (String × Strat (List Int))} {S : Strat DataArray}
    (h : fixed_dataarrays dims elements coords_elements mns mxs cst = .ok S) :
    ∃ CS, xr_coords_dicts dims coords_elements mns mxs true cst = .ok CS ∧
      S = flatMapE CS (fun cc => fixed_coords_dataarrays dims cc elements) := by
  simp only [fixed_dataarrays] at h
  obtain ⟨u1, _, h2⟩ := ebind_ok_inv h
  cases u1
  obtain ⟨CS, hCS, h3⟩ := ebind_ok_inv h2
  cases h3
  exact ⟨CS, hCS, rfl⟩

theorem fda_unique {dims : List String} {elements : Strat Int}
    {coords_elements : Option (Strat Int)} {mns : Int} {mxs : Option Int}
    {cst : List (String × Strat (List Int))} {S : Strat DataArray} {da : DataArray}
    (h : fixed_dataarrays dims elements coords_elements mns mxs cst = .ok S)
    (hda : S da) :
    ∀ p ∈ da.coords, lookupA p.1 cst = none → p.2.Nodup := by
  obtain ⟨CS, hCS, hS⟩ := fixed_dataarrays_ok_elim h
  subst hS
  obtain ⟨C, hC, T, hTok, hTda⟩ := hda
  obtain ⟨shape, _, hTeq⟩ := fca_ok_elim hTok
  subst hTeq
  obtain ⟨data, _, hdaeq⟩ := hTda
  subst hdaeq
  intro p hp hnone
  have hpC : p ∈ C := (List.mem_filter.mp hp).1
  exact coords_dict_nodup hCS hC p hpC hnone

theorem fds_unique {vtd : List (HVal × List String)} {elements : Strat Int}
    {coords_elements : Option (Strat Int)} {mns : Int} {mxs : Option Int}
    {cst : List (String × Strat (List Int))} {S : Strat Dataset} {ds : Dataset}
    (h : fixed_datasets vtd elements coords_elements mns mxs cst = .ok S)
    (hds : S ds) :
    ∀ p ∈ ds.coords, lookupA p.1 cst = none → p.2.Nodup := by
  obtain ⟨CS, hCS, hS⟩ := fixed_datasets_ok_elim h
  subst hS
  obtain ⟨C, hC, T, hTok, hTds⟩ := hds
  have hcoords := (fcd_mem hTok hTds).1
  intro p hp hnone
  rw [hcoords] at hp
  exact coords_dict_nodup hCS hC p hp hnone

theorem dataarrays_ok_elim {elements : Strat Int} {coords_elements : Option (Strat Int)}
    {mns : Int} {mxs : Option Int} {mnd : Int} {mxd : Option Int} {S : Strat DataArray}
    (h : dataarrays elements coords_elements mns mxs mnd mxd = .ok S) :
    ∃ D, xr_dim_lists mnd mxd = .ok D ∧
      S = flatMapE D (fun dims =>
        fixed_dataarrays dims elements coords_elements mns mxs []) := by
  simp only [dataarrays] at h
  obtain ⟨u1, _, h2⟩ := ebind_ok_inv h
  cases u1
  obtain ⟨u2, _, h3⟩ := ebind_ok_inv h2
  cases u2
  obtain ⟨D, hD, h4⟩ := ebind_ok_inv h3
  cases h4
  exact ⟨D, hD, rfl⟩

/-- Claim C10: dimensions with no per-dimension override strategy always
receive duplicate-free coordinates through the dataarray and dataset
pipelines, because `unique_coords` defaults to `True` and is not exposed
there. -/
theorem claim_C10 : unique_default_coords := by
  refine ⟨?_, ?_, ?_, ?_⟩
  · intro dims elements coords_elements mns mxs cst S da h hda
    exact fda_unique h hda
  · intro elements coords_elements mns mxs mnd mxd S da h hda p hp
    obtain ⟨D, _, hS⟩ := dataarrays_ok_elim h
    subst hS
    obtain ⟨dims, _, T, hTok, hTda⟩ := hda
    exact fda_unique hTok hTda p hp rfl
  · intro vtd elements coords_elements mns mxs cst S ds h hds
    exact fds_unique h hds
  · intro elements coords_elements mns mxs mnv mxv mnd mxd S ds h hds p hp
    obtain ⟨V, _, hS⟩ := datasets_ok_elim h
    subst hS
    obtain ⟨vtd, _, T, hTok, hTds⟩ := hds
    exact fds_unique hTok hTds p hp rfl

theorem getD_map_of_lt {l : List String} {f : String → Nat} :
    ∀ {p : Nat}, p < l.length → ∀ d, (l.map f).getD p 0 = f (l.getD p d) := by
  induction l with
  | nil => intro p h; cases h
  | cons a rest ih =>
      intro p h d
      cases p with
      | zero => rfl
      | succ n => exact ih (Nat.lt_of_succ_lt_succ h) d

/-- Claim C1 (spec-modelled): every draw of the gufunc argument generator is
shape-consistent with the parsed signature: one shared in-range size binding
gives each argument its core shape, so positions that share a core-dimension
symbol carry equal lengths in every argument. -/
theorem claim_C1 (sig_str : String) (sig : Gufunc.Signature) (elements : Strat Int)
    (mns mxs mex : Nat) (args : List Tensor)
    (hp : Gufunc.parse_signature sig_str = some sig)
    (hm : ∃ S, Gufunc.gufunc_args sig_str elements mns mxs mex = some S ∧ S args) :
    Gufunc.consistent_draw sig elements mns mxs mex args := by
  obtain ⟨S, hS, hargs⟩ := hm
  rw [Gufunc.gufunc_args, hp] at hS
  simp only [Option.map_some', Option.some.injEq] at hS
  rw [← hS] at hargs
  obtain ⟨b, extras, hb, hlen, hex, hfa⟩ := hargs
  refine ⟨b, extras, hb, hlen, ?_, hex, hfa, ?_⟩
  · have hzl := hfa.length_eq
    rw [List.length_zip, hlen, Nat.min_self] at hzl
    exact hzl.symm
  · intro i j p q hip hjq heq
    rw [getD_map_of_lt hip "", getD_map_of_lt hjq ""]
    exact congrArg b heq

/-- Witness for claim C1: the signature `"(m,n),(n,p)->(m,p)"` with size
range `[1, 3]` and zero extra dimensions, drawn at shapes `(2,1)` and
`(1,3)` with matching inner length `n = 1`. -/
theorem claim_C1_witness :
    Gufunc.consistent_draw
      (Gufunc.Signature.mk [["m", "n"], ["n", "p"]] ["m", "p"])
      (fun _ => True) 1 3 0
      [Tensor.arr [Tensor.arr [Tensor.scalar 0], Tensor.arr [Tensor.scalar 0]],
       Tensor.arr [Tensor.arr [Tensor.scalar 0, Tensor.scalar 0, Tensor.scalar 0]]] := by
  apply claim_C1 "(m,n),(n,p)->(m,p)"
  · decide
  · refine ⟨_, rfl, ?_⟩
    refine ⟨(fun s => if s = "m" then 2 else if s = "n" then 1 else 3),
      [[], []], ?_, rfl, ?_, ?_⟩
    · decide
    · decide
    · refine .cons ⟨?_, ?_⟩ (.cons ⟨?_, ?_⟩ .nil)
      · decide
      · simp [Tensor.allP, Tensor.allPL]
      · decide
      · simp [Tensor.allP, Tensor.allPL]

end Spec2Proof
